import Mathlib

/-!
Verification of the `redis_py` server sources (`app/resp_protocol.py`,
`app/commands.py`, `app/main.py`) against its natural-language specification.

Python byte strings (`bytes`) are modelled as `List Nat` (each element a byte
value), Python text strings (`str`) as `List Nat` of Unicode code points, and
`str.encode()` / `bytes.decode()` as strict UTF-8 encoding and decoding.
Wall-clock times (Python floats from `time.time()`) are modelled as rationals;
the handlers receive the current time explicitly.  A Python function that can
raise an exception is modelled with an `Option` result, `none` standing for
the raised exception.
-/

/-- Python `str` values: a list of Unicode code points. -/
abbrev PyStr := List Nat

/-- ASCII code points of a Lean string literal (used for the protocol's
ASCII constants such as `+OK`). -/
def asciiOf (s : String) : List Nat := s.toList.map Char.toNat

/-- Model of Python `str.upper()` restricted to ASCII letters (the source
only ever compares the result against the ASCII token `PX`). -/
def pyUpper (s : PyStr) : PyStr :=
  s.map (fun c => if 97 ≤ c ∧ c ≤ 122 then c - 32 else c)

/-- Parse a nonempty all-digit code-point list as a natural number
(the digit core of Python `int()`). -/
def pyIntDigits (l : List Nat) : Option Nat :=
  if l = [] then none
  else if l.all (fun c => 48 ≤ c ∧ c ≤ 57) then
    some (l.foldl (fun a c => a * 10 + (c - 48)) 0)
  else none

/-- Model of Python `int(s)` on its sign-and-digits core: an optional single
leading `+` or `-` followed by decimal digits.  (Python additionally strips
whitespace and allows `_` separators; those leniencies are not exercised by
this program's protocol paths.) -/
def pyInt (s : List Nat) : Option Int :=
  if s.head? = some 43 then (pyIntDigits s.tail).map (fun n => (n : Int))
  else if s.head? = some 45 then (pyIntDigits s.tail).map (fun n => -(n : Int))
  else (pyIntDigits s).map (fun n => (n : Int))

/-- Little-endian decimal digits of a positive natural number. -/
def toDecimalAux : Nat → List Nat
  | 0 => []
  | n + 1 => ((n + 1) % 10) :: toDecimalAux ((n + 1) / 10)
decreasing_by exact Nat.div_lt_self (Nat.succ_pos n) (by omega)

/-- Model of Python `str(n)` for a natural number: its decimal digits as
ASCII code points. -/
def natToStr (n : Nat) : List Nat :=
  if n = 0 then [48] else (toDecimalAux n).reverse.map (· + 48)

/-- Python slice `l[:k]` (negative `k` counts from the end). -/
def pyTake (k : Int) (l : List (List Nat)) : List (List Nat) :=
  if k < 0 then l.take (l.length - (-k).toNat) else l.take k.toNat

/-- Python slice `l[k:]` (negative `k` counts from the end). -/
def pyDrop (k : Int) (l : List (List Nat)) : List (List Nat) :=
  if k < 0 then l.drop (l.length - (-k).toNat) else l.drop k.toNat

/-- UTF-8 encoding of a single Unicode code point. -/
def utf8EncodeChar (c : Nat) : List Nat :=
  if c < 128 then [c]
  else if c < 2048 then [192 + c / 64, 128 + c % 64]
  else if c < 65536 then [224 + c / 4096, 128 + c / 64 % 64, 128 + c % 64]
  else [240 + c / 262144, 128 + c / 4096 % 64, 128 + c / 64 % 64, 128 + c % 64]

/-- Model of Python `str.encode()`: UTF-8 bytes of a code-point list. -/
def utf8Str (s : PyStr) : List Nat := (s.map utf8EncodeChar).flatten

/-- Decode one UTF-8 character from the front of a byte list: the code point
and the remaining bytes.  Rejects malformed sequences, overlong forms,
surrogates and out-of-range values. -/
def utf8DecodeChar : List Nat → Option (Nat × List Nat)
  | [] => none
  | b :: rest =>
    if b < 128 then some (b, rest)
    else if b < 192 then none
    else if b < 224 then
      match rest with
      | [] => none
      | b2 :: rest2 =>
        if 128 ≤ b2 ∧ b2 < 192 then
          if (b - 192) * 64 + (b2 - 128) < 128 then none
          else some ((b - 192) * 64 + (b2 - 128), rest2)
        else none
    else if b < 240 then
      match rest with
      | b2 :: b3 :: rest3 =>
        if (128 ≤ b2 ∧ b2 < 192) ∧ (128 ≤ b3 ∧ b3 < 192) then
          if (b - 224) * 4096 + (b2 - 128) * 64 + (b3 - 128) < 2048 ∨
              (55296 ≤ (b - 224) * 4096 + (b2 - 128) * 64 + (b3 - 128) ∧
               (b - 224) * 4096 + (b2 - 128) * 64 + (b3 - 128) < 57344) then none
          else some ((b - 224) * 4096 + (b2 - 128) * 64 + (b3 - 128), rest3)
        else none
      | _ => none
    else if b < 248 then
      match rest with
      | b2 :: b3 :: b4 :: rest4 =>
        if (128 ≤ b2 ∧ b2 < 192) ∧ (128 ≤ b3 ∧ b3 < 192) ∧ (128 ≤ b4 ∧ b4 < 192) then
          if (b - 240) * 262144 + (b2 - 128) * 4096 + (b3 - 128) * 64 + (b4 - 128) < 65536 ∨
              1114112 ≤ (b - 240) * 262144 + (b2 - 128) * 4096 + (b3 - 128) * 64 + (b4 - 128)
          then none
          else some ((b - 240) * 262144 + (b2 - 128) * 4096 + (b3 - 128) * 64 + (b4 - 128),
            rest4)
        else none
      | _ => none
    else none

/-- Iterated UTF-8 character decoding with fuel (every character consumes at
least one byte, so fuel equal to the byte count always suffices). -/
def utf8DecodeAux : Nat → List Nat → Option (List Nat)
  | _, [] => some []
  | 0, _ :: _ => none
  | fuel + 1, b :: rest =>
    match utf8DecodeChar (b :: rest) with
    | none => none
    | some (c, rem) => (utf8DecodeAux fuel rem).map (c :: ·)

/-- Model of Python `bytes.decode()`: strict UTF-8 decoding of a whole byte
list (`none` models the raised `UnicodeDecodeError`). -/
def utf8Decode (l : List Nat) : Option (List Nat) := utf8DecodeAux l.length l

/-- Code points representable in a Python `str` that `str.encode()` accepts:
everything below the surrogate range plus the planes above it. -/
def ValidChar (c : Nat) : Prop := c < 55296 ∨ (57343 < c ∧ c < 1114112)

instance (c : Nat) : Decidable (ValidChar c) := by unfold ValidChar; infer_instance

theorem utf8EncodeChar_ne_nil (c : Nat) : utf8EncodeChar c ≠ [] := by
  unfold utf8EncodeChar
  split_ifs <;> simp

theorem utf8EncodeChar_one (c : Nat) (h : c < 128) : utf8EncodeChar c = [c] := by
  unfold utf8EncodeChar
  split_ifs <;> first | rfl | omega

theorem utf8EncodeChar_two (c : Nat) (h1 : 128 ≤ c) (h2 : c < 2048) :
    utf8EncodeChar c = [192 + c / 64, 128 + c % 64] := by
  unfold utf8EncodeChar
  split_ifs <;> first | rfl | omega

theorem utf8EncodeChar_three (c : Nat) (h1 : 2048 ≤ c) (h2 : c < 65536) :
    utf8EncodeChar c = [224 + c / 4096, 128 + c / 64 % 64, 128 + c % 64] := by
  unfold utf8EncodeChar
  split_ifs <;> first | rfl | omega

theorem utf8EncodeChar_four (c : Nat) (h1 : 65536 ≤ c) :
    utf8EncodeChar c = [240 + c / 262144, 128 + c / 4096 % 64, 128 + c / 64 % 64, 128 + c % 64] := by
  unfold utf8EncodeChar
  split_ifs <;> first | rfl | omega

theorem utf8Str_append (a b : PyStr) : utf8Str (a ++ b) = utf8Str a ++ utf8Str b := by
  simp [utf8Str]

theorem utf8Str_cons (c : Nat) (t : PyStr) :
    utf8Str (c :: t) = utf8EncodeChar c ++ utf8Str t := by
  simp [utf8Str]

theorem utf8Str_ascii (l : PyStr) (h : ∀ c ∈ l, c < 128) : utf8Str l = l := by
  induction l with
  | nil => simp [utf8Str]
  | cons c t ih =>
    have hc : c < 128 := h c (List.mem_cons_self _ _)
    have ht : utf8Str t = t := ih (fun x hx => h x (List.mem_cons_of_mem _ hx))
    rw [utf8Str_cons, ht, utf8EncodeChar_one c hc]
    rfl

set_option maxHeartbeats 1000000 in
theorem utf8DecodeChar_encode (c : Nat) (h : ValidChar c) (t : List Nat) :
    utf8DecodeChar (utf8EncodeChar c ++ t) = some (c, t) := by
  have hv : c < 55296 ∨ (57343 < c ∧ c < 1114112) := h
  rcases Nat.lt_or_ge c 128 with h1 | h1
  · rw [utf8EncodeChar_one c h1]
    simp only [List.cons_append, List.nil_append, utf8DecodeChar]
    split_ifs <;> first | rfl | omega
  rcases Nat.lt_or_ge c 2048 with h2 | h2
  · rw [utf8EncodeChar_two c h1 h2]
    simp only [List.cons_append, List.nil_append, utf8DecodeChar]
    split_ifs <;>
      first
        | (exfalso; omega)
        | (simp only [Option.some.injEq, Prod.mk.injEq]; exact ⟨by omega, by trivial⟩)
  rcases Nat.lt_or_ge c 65536 with h3 | h3
  · rw [utf8EncodeChar_three c h2 h3]
    simp only [List.cons_append, List.nil_append, utf8DecodeChar]
    split_ifs <;>
      first
        | (exfalso; omega)
        | (simp only [Option.some.injEq, Prod.mk.injEq]; exact ⟨by omega, by trivial⟩)
  · rw [utf8EncodeChar_four c h3]
    simp only [List.cons_append, List.nil_append, utf8DecodeChar]
    split_ifs <;>
      first
        | (exfalso; omega)
        | (simp only [Option.some.injEq, Prod.mk.injEq]; exact ⟨by omega, by trivial⟩)

theorem utf8DecodeAux_utf8Str (s : PyStr) : ∀ fuel, (utf8Str s).length ≤ fuel →
    (∀ c ∈ s, ValidChar c) → utf8DecodeAux fuel (utf8Str s) = some s := by
  induction s with
  | nil =>
    intro fuel _ _
    cases fuel <;> simp [utf8Str, utf8DecodeAux]
  | cons c rest ih =>
    intro fuel hf hv
    rw [utf8Str_cons] at hf ⊢
    obtain ⟨b, bs, hb⟩ : ∃ b bs, utf8EncodeChar c ++ utf8Str rest = b :: bs := by
      cases hE : utf8EncodeChar c with
      | nil => exact absurd hE (utf8EncodeChar_ne_nil c)
      | cons x xs => exact ⟨x, xs ++ utf8Str rest, by simp [hE]⟩
    have hEl : 1 ≤ (utf8EncodeChar c).length := by
      cases hE : utf8EncodeChar c with
      | nil => exact absurd hE (utf8EncodeChar_ne_nil c)
      | cons _ _ => simp
    obtain ⟨f, rfl⟩ : ∃ f, fuel = f + 1 := by
      refine ⟨fuel - 1, ?_⟩
      rw [hb] at hf
      simp at hf
      omega
    rw [hb, utf8DecodeAux, ← hb]
    rw [utf8DecodeChar_encode c (hv c (List.mem_cons_self _ _)) (utf8Str rest)]
    have hrec := ih f (by simp at hf; omega) (fun x hx => hv x (List.mem_cons_of_mem _ hx))
    simp [hrec]

theorem utf8Decode_utf8Str (s : PyStr) (h : ∀ c ∈ s, ValidChar c) :
    utf8Decode (utf8Str s) = some s :=
  utf8DecodeAux_utf8Str s (utf8Str s).length le_rfl h

theorem toDecimalAux_digits (n : Nat) : ∀ d ∈ toDecimalAux n, d < 10 := by
  induction n using Nat.strong_induction_on with
  | _ n ih =>
    match n with
    | 0 => intro d hd; simp [toDecimalAux] at hd
    | m + 1 =>
      intro d hd
      rw [toDecimalAux] at hd
      rcases List.mem_cons.mp hd with h | h
      · subst h; exact Nat.mod_lt _ (by omega)
      · exact ih ((m + 1) / 10) (Nat.div_lt_self (Nat.succ_pos m) (by omega)) d h

theorem natToStr_mem (n : Nat) : ∀ c ∈ natToStr n, 48 ≤ c ∧ c ≤ 57 := by
  intro c hc
  unfold natToStr at hc
  split_ifs at hc with h
  · simp at hc; omega
  · rcases List.mem_map.mp hc with ⟨d, hd, rfl⟩
    have := toDecimalAux_digits n d (List.mem_reverse.mp hd)
    omega

theorem toDecimalAux_foldl (n : Nat) : ∀ acc : Nat,
    (((toDecimalAux n).reverse.map (· + 48)).foldl (fun a c => a * 10 + (c - 48)) acc)
      = acc * 10 ^ (toDecimalAux n).length + n := by
  induction n using Nat.strong_induction_on with
  | _ n ih =>
    match n with
    | 0 => intro acc; simp [toDecimalAux]
    | m + 1 =>
      intro acc
      rw [toDecimalAux]
      have hlt : (m + 1) / 10 < m + 1 := Nat.div_lt_self (Nat.succ_pos m) (by omega)
      simp only [List.reverse_cons, List.map_append, List.map_cons, List.map_nil,
        List.foldl_append, List.foldl_cons, List.foldl_nil, List.length_cons]
      rw [ih ((m + 1) / 10) hlt acc]
      have e1 : 10 * ((m + 1) / 10) + (m + 1) % 10 = m + 1 := Nat.div_add_mod (m + 1) 10
      have m1 : (m + 1) % 10 < 10 := Nat.mod_lt _ (by omega)
      have : (m + 1) % 10 + 48 - 48 = (m + 1) % 10 := by omega
      rw [this]
      ring_nf
      omega

theorem natToStr_ne_nil (n : Nat) : natToStr n ≠ [] := by
  unfold natToStr
  split_ifs with h
  · simp
  · intro hc
    have hne2 : toDecimalAux n ≠ [] := by
      cases n with
      | zero => exact absurd rfl h
      | succ m => rw [toDecimalAux]; simp
    simp at hc
    exact hne2 hc

theorem pyIntDigits_natToStr (n : Nat) : pyIntDigits (natToStr n) = some n := by
  unfold pyIntDigits
  rw [if_neg (natToStr_ne_nil n)]
  have hall : (natToStr n).all (fun c => decide (48 ≤ c ∧ c ≤ 57)) = true := by
    rw [List.all_eq_true]
    intro c hc
    exact decide_eq_true (natToStr_mem n c hc)
  rw [if_pos hall]
  congr 1
  unfold natToStr
  split_ifs with h
  · subst h; rfl
  · rw [toDecimalAux_foldl n 0]
    simp

theorem pyInt_natToStr (n : Nat) : pyInt (natToStr n) = some (n : Int) := by
  obtain ⟨c, cs, hcs⟩ : ∃ c cs, natToStr n = c :: cs := by
    cases h : natToStr n with
    | nil => exact absurd h (natToStr_ne_nil n)
    | cons c cs => exact ⟨c, cs, rfl⟩
  have hc : 48 ≤ c ∧ c ≤ 57 := natToStr_mem n c (by rw [hcs]; exact List.mem_cons_self _ _)
  unfold pyInt
  rw [hcs, if_neg, if_neg]
  · rw [← hcs, pyIntDigits_natToStr n]
    rfl
  · simp only [List.head?, Option.some.injEq]
    omega
  · simp only [List.head?, Option.some.injEq]
    omega

/-- Does a byte list contain the two-byte subsequence CR LF? -/
def hasCRLF : List Nat → Bool
  | [] => false
  | [_] => false
  | a :: b :: rest => (a == 13 && b == 10) || hasCRLF (b :: rest)

/-- Model of Python `data.split(b"\r\n")`: greedy left-to-right splitting on
the two-byte separator. -/
def splitSep : List Nat → List (List Nat)
  | [] => [[]]
  | b :: rest =>
    if b = 13 ∧ rest.head? = some 10 then [] :: splitSep rest.tail
    else
      match splitSep rest with
      | [] => [[b]]
      | s :: ss => (b :: s) :: ss
termination_by l => l.length
decreasing_by
  · simp [List.length_tail]; omega
  · simp

/-- Model of Python `b"\r\n".join(segments)`. -/
def joinSep : List (List Nat) → List Nat
  | [] => []
  | s :: ss =>
    match ss with
    | [] => s
    | _ :: _ => s ++ 13 :: 10 :: joinSep ss

theorem hasCRLF_cons (a : Nat) (l : List Nat) :
    hasCRLF (a :: l) = ((a == 13 && l.head? == some 10) || hasCRLF l) := by
  cases l with
  | nil => simp [hasCRLF]
  | cons b rest => simp [hasCRLF]

theorem splitSep_ne_nil (l : List Nat) : splitSep l ≠ [] := by
  cases l with
  | nil => simp [splitSep]
  | cons b rest =>
    rw [splitSep]
    split_ifs with h
    · simp
    · cases hs : splitSep rest with
      | nil => simp
      | cons s ss => simp

theorem splitSep_noCRLF (v : List Nat) (h : hasCRLF v = false) : splitSep v = [v] := by
  induction v with
  | nil => simp [splitSep]
  | cons b rest ih =>
    rw [hasCRLF_cons] at h
    simp only [Bool.or_eq_false_iff, Bool.and_eq_false_iff] at h
    rw [splitSep]
    rw [if_neg]
    · rw [ih h.2]
    · rintro ⟨hb, hh⟩
      rcases h.1 with h1 | h1
      · rw [hb] at h1
        simp at h1
      · rw [hh] at h1
        simp at h1

theorem splitSep_sep (v : List Nat) (h : hasCRLF v = false) (r : List Nat) :
    splitSep (v ++ 13 :: 10 :: r) = v :: splitSep r := by
  induction v with
  | nil =>
    rw [List.nil_append, splitSep]
    rw [if_pos (by simp)]
    rfl
  | cons b rest ih =>
    rw [hasCRLF_cons] at h
    simp only [Bool.or_eq_false_iff, Bool.and_eq_false_iff] at h
    rw [List.cons_append, splitSep]
    rw [if_neg]
    · rw [ih h.2]
    · rintro ⟨hb, hh⟩
      cases hrest : rest with
      | nil =>
        rw [hrest] at hh
        simp at hh
      | cons x xs =>
        rw [hrest] at hh
        simp at hh
        rcases h.1 with h1 | h1
        · exact absurd hb (by simpa using h1)
        · rw [hrest] at h1
          simp [hh] at h1

theorem joinSep_cons_ne (s : List Nat) (ss : List (List Nat)) (h : ss ≠ []) :
    joinSep (s :: ss) = s ++ 13 :: 10 :: joinSep ss := by
  cases ss with
  | nil => exact absurd rfl h
  | cons t ts => rfl

theorem joinSep_splitSep_aux : ∀ n l, l.length ≤ n → joinSep (splitSep l) = l := by
  intro n
  induction n with
  | zero =>
    intro l h
    cases l with
    | nil => simp [splitSep, joinSep]
    | cons b rest => simp at h
  | succ n ihn =>
    intro l h
    cases l with
    | nil => simp [splitSep, joinSep]
    | cons b rest =>
      rw [splitSep]
      split_ifs with hcond
      · obtain ⟨hb, hh⟩ := hcond
        obtain ⟨t, ht⟩ : ∃ t, rest = 10 :: t := by
          cases rest with
          | nil => simp at hh
          | cons x xs =>
            simp only [List.head?, Option.some.injEq] at hh
            exact ⟨xs, by rw [hh]⟩
        subst hb
        rw [ht]
        simp only [List.tail_cons]
        rw [joinSep_cons_ne _ _ (splitSep_ne_nil t)]
        rw [ihn t (by rw [ht] at h; simp at h; omega)]
        rfl
      · cases hs : splitSep rest with
        | nil => exact absurd hs (splitSep_ne_nil rest)
        | cons s ss =>
          have hrec : joinSep (s :: ss) = rest := by
            rw [← hs]
            exact ihn rest (by simp at h; omega)
          cases ss with
          | nil =>
            have : s = rest := by simpa [joinSep] using hrec
            simp [joinSep, this]
          | cons u us =>
            rw [joinSep_cons_ne _ _ (by simp)]
            rw [joinSep_cons_ne _ _ (by simp)] at hrec
            rw [List.cons_append, hrec]

theorem joinSep_splitSep (l : List Nat) : joinSep (splitSep l) = l :=
  joinSep_splitSep_aux l.length l le_rfl

theorem hasCRLF_append_no13 (xs ys : List Nat) (h : ∀ b ∈ xs, b ≠ 13) :
    hasCRLF (xs ++ ys) = hasCRLF ys := by
  induction xs with
  | nil => rfl
  | cons x xs ih =>
    rw [List.cons_append, hasCRLF_cons]
    rw [ih (fun b hb => h b (List.mem_cons_of_mem _ hb))]
    have hx : x ≠ 13 := h x (List.mem_cons_self _ _)
    simp [hx]

theorem hasCRLF_of_no13 (l : List Nat) (h : ∀ b ∈ l, b ≠ 13) : hasCRLF l = false := by
  have := hasCRLF_append_no13 l [] h
  simpa using this

theorem utf8EncodeChar_high (c : Nat) (h : 128 ≤ c) :
    ∀ b ∈ utf8EncodeChar c, 128 ≤ b := by
  intro b hb
  rcases Nat.lt_or_ge c 2048 with h2 | h2
  · rw [utf8EncodeChar_two c h h2] at hb
    simp at hb
    rcases hb with hb | hb <;> omega
  rcases Nat.lt_or_ge c 65536 with h3 | h3
  · rw [utf8EncodeChar_three c h2 h3] at hb
    simp at hb
    rcases hb with hb | hb | hb <;> omega
  · rw [utf8EncodeChar_four c h3] at hb
    simp at hb
    rcases hb with hb | hb | hb | hb <;> omega

theorem utf8Str_head10 (s : PyStr) :
    ((utf8Str s).head? = some 10) ↔ s.head? = some 10 := by
  cases s with
  | nil => simp [utf8Str]
  | cons c t =>
    rw [utf8Str_cons]
    rcases Nat.lt_or_ge c 128 with h1 | h1
    · rw [utf8EncodeChar_one c h1]
      simp
    · obtain ⟨b, bs, hb⟩ : ∃ b bs, utf8EncodeChar c = b :: bs := by
        cases hE : utf8EncodeChar c with
        | nil => exact absurd hE (utf8EncodeChar_ne_nil c)
        | cons x xs => exact ⟨x, xs, rfl⟩
      have hbig : 128 ≤ b := utf8EncodeChar_high c h1 b (by rw [hb]; exact List.mem_cons_self _ _)
      rw [hb]
      simp only [List.cons_append, List.head?_cons, List.head?, Option.some.injEq]
      constructor
      · intro hh; omega
      · intro hh; omega

theorem utf8Str_noCRLF (s : PyStr) (h : hasCRLF s = false) :
    hasCRLF (utf8Str s) = false := by
  induction s with
  | nil => simp [utf8Str, hasCRLF]
  | cons c t ih =>
    rw [hasCRLF_cons] at h
    simp only [Bool.or_eq_false_iff, Bool.and_eq_false_iff] at h
    have hrec : hasCRLF (utf8Str t) = false := ih h.2
    rw [utf8Str_cons]
    rcases Nat.lt_or_ge c 128 with h1 | h1
    · rw [utf8EncodeChar_one c h1, List.cons_append, List.nil_append, hasCRLF_cons, hrec]
      rcases h.1 with hc | hc
      · simp only [Bool.or_false, Bool.and_eq_false_iff]
        left
        exact hc
      · simp only [Bool.or_false, Bool.and_eq_false_iff]
        right
        rw [beq_eq_false_iff_ne] at hc ⊢
        intro hcontra
        exact hc ((utf8Str_head10 t).mp (by simpa using hcontra))
    · exact (hasCRLF_append_no13 _ _ (fun b hb => by
        have := utf8EncodeChar_high c h1 b hb
        omega)).trans hrec

/-- `encode_bulk_string` from `app/resp_protocol.py` (duplicated in
`app/main.py`): the Python expression is
`f"${len(value)}\r\n{value}\r\n".encode()`.  Note that `len(value)` counts
characters of the `str`, while `.encode()` emits UTF-8 bytes. -/
def encode_bulk_string (value : PyStr) : List Nat :=
  utf8Str ([36] ++ natToStr value.length ++ [13, 10] ++ value ++ [13, 10])

/-- `encode_null_bulk_string` from `app/resp_protocol.py`: `b"$-1\r\n"`. -/
def encode_null_bulk_string : List Nat := [36, 45, 49, 13, 10]

/-- `encode_resp_array` from `app/resp_protocol.py` (duplicated in
`app/main.py`): `f"*{len(elements)}\r\n".encode()` followed by the
bulk-string encodings of the elements. -/
def encode_resp_array (elements : List PyStr) : List Nat :=
  utf8Str ([42] ++ natToStr elements.length ++ [13, 10]) ++
    (elements.map encode_bulk_string).flatten

/-- Outcome of Python `parse_resp`: an uncaught exception, the value `None`,
or a list of argument strings. -/
inductive PResult where
  | err : PResult
  | retNone : PResult
  | ok : List PyStr → PResult
deriving DecidableEq

/-- The `while` loop of `parse_resp`: scans `lines` from index `i`,
collecting one decoded element after every line that starts with `$`
(`PResult.err` models an uncaught `ValueError`, `IndexError` or
`UnicodeDecodeError`). -/
def parseLoop (lines : List (List Nat)) (num : Int) (i : Nat) (acc : List PyStr) : PResult :=
  if h : (acc.length : Int) < num ∧ i < lines.length then
    if (lines.getD i []).head? = some 36 then
      match pyInt ((lines.getD i []).drop 1) with
      | none => .err
      | some _ =>
        if i + 1 < lines.length then
          match utf8Decode (lines.getD (i + 1) []) with
          | none => .err
          | some v => parseLoop lines num (i + 2) (acc ++ [v])
        else .err
    else parseLoop lines num (i + 1) acc
  else .ok acc
termination_by lines.length - i
decreasing_by
  · omega
  · omega

/-- `parse_resp` from `app/resp_protocol.py` (the identical copy in
`app/main.py` is the one the server calls): reject buffers that do not start
with `*`, split on CRLF, read the element count from the header line, then
collect bulk-string payload lines. -/
def parse_resp (data : List Nat) : PResult :=
  if data.head? ≠ some 42 then .retNone
  else
    match pyInt (((splitSep data).headD []).drop 1) with
    | none => .err
    | some num => parseLoop (splitSep data) num 1 []

theorem natToStr_no13 (n : Nat) : ∀ b ∈ natToStr n, b ≠ 13 := by
  intro b hb
  have := natToStr_mem n b hb
  omega

theorem hasCRLF_header (x : Nat) (hx : x ≠ 13) (n : Nat) :
    hasCRLF ([x] ++ natToStr n) = false := by
  apply hasCRLF_of_no13
  intro b hb
  rcases List.mem_append.mp hb with hb | hb
  · simp at hb
    omega
  · exact natToStr_no13 n b hb

theorem encode_bulk_string_eq (v : PyStr) :
    encode_bulk_string v =
      ([36] ++ natToStr v.length) ++ 13 :: 10 :: (utf8Str v ++ 13 :: 10 :: []) := by
  unfold encode_bulk_string
  simp only [utf8Str_append]
  rw [utf8Str_ascii [36] (by simp),
    utf8Str_ascii (natToStr v.length) (fun c hc => by have := natToStr_mem _ c hc; omega),
    utf8Str_ascii [13, 10] (by simp)]
  simp [List.append_assoc]

theorem encode_resp_array_eq (elements : List PyStr) :
    encode_resp_array elements =
      ([42] ++ natToStr elements.length) ++ 13 :: 10 ::
        (elements.map encode_bulk_string).flatten := by
  unfold encode_resp_array
  simp only [utf8Str_append]
  rw [utf8Str_ascii [42] (by simp),
    utf8Str_ascii (natToStr elements.length) (fun c hc => by have := natToStr_mem _ c hc; omega),
    utf8Str_ascii [13, 10] (by simp)]
  simp [List.append_assoc]

/-- The CRLF-split segments contributed by the bulk-string encodings of a
frame's elements: a `$<len>` header line and a payload line per element. -/
def frameBody : List PyStr → List (List Nat)
  | [] => []
  | e :: es => ([36] ++ natToStr e.length) :: utf8Str e :: frameBody es

theorem frameBody_length (args : List PyStr) : (frameBody args).length = 2 * args.length := by
  induction args with
  | nil => simp [frameBody]
  | cons e es ih => simp [frameBody, ih]; omega

theorem splitSep_bulks (args : List PyStr) (h : ∀ e ∈ args, hasCRLF e = false)
    (t : List Nat) :
    splitSep ((args.map encode_bulk_string).flatten ++ t) = frameBody args ++ splitSep t := by
  induction args with
  | nil => simp [frameBody]
  | cons e es ih =>
    have he : hasCRLF e = false := h e (List.mem_cons_self _ _)
    have hes : ∀ x ∈ es, hasCRLF x = false := fun x hx => h x (List.mem_cons_of_mem _ hx)
    have step : (List.map encode_bulk_string (e :: es)).flatten ++ t =
        ([36] ++ natToStr e.length) ++ 13 :: 10 ::
          (utf8Str e ++ 13 :: 10 :: ((List.map encode_bulk_string es).flatten ++ t)) := by
      rw [List.map_cons, List.flatten_cons, encode_bulk_string_eq]
      simp [List.append_assoc]
    rw [step, splitSep_sep _ (hasCRLF_header 36 (by omega) e.length),
      splitSep_sep _ (utf8Str_noCRLF e he), ih hes]
    rfl

theorem splitSep_encode_array (args : List PyStr) (h : ∀ e ∈ args, hasCRLF e = false)
    (t : List Nat) :
    splitSep (encode_resp_array args ++ t) =
      ([42] ++ natToStr args.length) :: (frameBody args ++ splitSep t) := by
  have step : encode_resp_array args ++ t =
      ([42] ++ natToStr args.length) ++ 13 :: 10 ::
        ((args.map encode_bulk_string).flatten ++ t) := by
    rw [encode_resp_array_eq]
    simp [List.append_assoc]
  rw [step, splitSep_sep _ (hasCRLF_header 42 (by omega) args.length),
    splitSep_bulks args h t]

theorem parseLoop_frames : ∀ (args : List PyStr) (pre : List (List Nat))
    (acc : List PyStr) (suffix : List (List Nat)) (num : Int),
    num = ((acc.length + args.length : Nat) : Int) →
    (∀ e ∈ args, utf8Decode (utf8Str e) = some e) →
    parseLoop (pre ++ frameBody args ++ suffix) num pre.length acc = .ok (acc ++ args) := by
  intro args
  induction args with
  | nil =>
    intro pre acc suffix num hnum _
    rw [parseLoop, dif_neg]
    · simp
    · rintro ⟨h1, _⟩
      rw [hnum] at h1
      simp at h1
  | cons e es ih =>
    intro pre acc suffix num hnum hdec
    have hL : (pre ++ frameBody (e :: es) ++ suffix).length =
        pre.length + (2 + 2 * es.length) + suffix.length := by
      simp [frameBody, frameBody_length]
      omega
    have hget0 : (pre ++ frameBody (e :: es) ++ suffix).getD pre.length [] =
        [36] ++ natToStr e.length := by
      rw [List.append_assoc, List.getD_append_right _ _ _ _ le_rfl]
      simp [frameBody]
    have hget1 : (pre ++ frameBody (e :: es) ++ suffix).getD (pre.length + 1) [] =
        utf8Str e := by
      rw [List.append_assoc, List.getD_append_right _ _ _ _ (by omega)]
      have h1 : pre.length + 1 - pre.length = 1 := by omega
      rw [h1]
      simp [frameBody]
    have hc1 : (acc.length : Int) < num ∧
        pre.length < (pre ++ frameBody (e :: es) ++ suffix).length := by
      constructor
      · rw [hnum]
        push_cast
        simp only [List.length_cons]
        omega
      · omega
    have hc2 : pre.length + 1 < (pre ++ frameBody (e :: es) ++ suffix).length := by omega
    have hnum2 : num = (((acc ++ [e]).length + es.length : Nat) : Int) := by
      rw [hnum]
      push_cast
      simp only [List.length_cons, List.length_append, List.length_nil]
      omega
    have ih2 := ih (pre ++ [[36] ++ natToStr e.length, utf8Str e]) (acc ++ [e]) suffix num
      hnum2 (fun x hx => hdec x (List.mem_cons_of_mem _ hx))
    have hdrop : List.drop 1 ([36] ++ natToStr e.length) = natToStr e.length := by simp
    rw [parseLoop, dif_pos hc1, hget0, if_pos (by simp)]
    rw [hdrop]
    simp only [pyInt_natToStr]
    rw [if_pos hc2, hget1]
    simp only [hdec e (List.mem_cons_self _ _)]
    simpa [frameBody, List.append_assoc] using ih2

/-- Argument strings whose encoding the line-splitting parser can recover:
all code points encodable, and no embedded CRLF pair. -/
def GoodArg (e : PyStr) : Prop := (∀ c ∈ e, ValidChar c) ∧ hasCRLF e = false

instance (e : PyStr) : Decidable (GoodArg e) := by unfold GoodArg; infer_instance

theorem encode_resp_array_head (args : List PyStr) :
    (encode_resp_array args).head? = some 42 := by
  rw [encode_resp_array_eq]
  rfl

theorem parse_resp_encode (args : List PyStr) (h : ∀ e ∈ args, GoodArg e) :
    parse_resp (encode_resp_array args) = .ok args := by
  have hsplit : splitSep (encode_resp_array args) =
      ([42] ++ natToStr args.length) :: (frameBody args ++ [[]]) := by
    have hx := splitSep_encode_array args (fun e he => (h e he).2) []
    rw [List.append_nil] at hx
    rw [hx]
    simp [splitSep]
  unfold parse_resp
  rw [if_neg (by rw [encode_resp_array_head]; simp)]
  rw [hsplit]
  have hhead : (((([42] ++ natToStr args.length) :: (frameBody args ++ [[]]))).headD []).drop 1
      = natToStr args.length := by simp
  rw [hhead, pyInt_natToStr]
  have hloop := parseLoop_frames args [[42] ++ natToStr args.length] [] [[]]
    ((args.length : Nat) : Int) (by simp)
    (fun e he => utf8Decode_utf8Str e (h e he).1)
  simpa using hloop

/-- The `while` loop of `parse_multiple_resp_commands` in `app/main.py`,
with explicit fuel (the Python loop can fail to make progress — and thus
not terminate — on adversarial negative element counts; `none` covers both
an uncaught exception from `parse_resp` and a non-returning run, and the
chosen fuel is large enough for every terminating run). -/
def parse_multiple_loop : Nat → List Nat → List (List PyStr) →
    Option (List (List PyStr) × List Nat)
  | 0, _, _ => none
  | fuel + 1, data, acc =>
    if data = [] then some (acc, data)
    else if data.head? ≠ some 42 then some (acc, data)
    else if (splitSep data).length < 2 then some (acc, data)
    else
      match pyInt (((splitSep data).headD []).drop 1) with
      | none => some (acc, data)
      | some num =>
        if ((splitSep data).length : Int) < 1 + num * 2 then some (acc, data)
        else
          match parse_resp (joinSep (pyTake (1 + num * 2) (splitSep data)) ++ [13, 10]) with
          | .err => none
          | .retNone =>
            if joinSep (pyDrop (1 + num * 2) (splitSep data)) = [] then
              some (acc, joinSep (pyDrop (1 + num * 2) (splitSep data)))
            else parse_multiple_loop fuel (joinSep (pyDrop (1 + num * 2) (splitSep data))) acc
          | .ok c =>
            if joinSep (pyDrop (1 + num * 2) (splitSep data)) = [] then
              some ((if c = [] then acc else acc ++ [c]),
                joinSep (pyDrop (1 + num * 2) (splitSep data)))
            else parse_multiple_loop fuel (joinSep (pyDrop (1 + num * 2) (splitSep data)))
              (if c = [] then acc else acc ++ [c])

/-- `parse_multiple_resp_commands` from `app/main.py`: repeatedly peel one
complete RESP frame off the front of the buffer; return the parsed commands
(a decoded frame is appended only when the Python value is truthy, i.e. a
nonempty list) together with the unconsumed residual bytes. -/
def parse_multiple_resp_commands (data : List Nat) :
    Option (List (List PyStr) × List Nat) :=
  parse_multiple_loop (data.length + 1) data []

theorem joinSep_concat_nil (l : List (List Nat)) (h : l ≠ []) :
    joinSep (l ++ [[]]) = joinSep l ++ 13 :: 10 :: [] := by
  induction l with
  | nil => exact absurd rfl h
  | cons s ss ih =>
    cases ss with
    | nil => rfl
    | cons u us =>
      rw [show (s :: u :: us) ++ [[]] = s :: ((u :: us) ++ [[]]) from rfl]
      rw [joinSep_cons_ne _ _ (by simp), joinSep_cons_ne _ _ (by simp)]
      rw [ih (by simp)]
      simp [List.append_assoc]

theorem encode_resp_array_ne_nil (args : List PyStr) : encode_resp_array args ≠ [] := by
  intro h
  have hh := encode_resp_array_head args
  rw [h] at hh
  simp at hh

theorem flatten_encode_length (frames : List (List PyStr)) :
    frames.length ≤ ((frames.map encode_resp_array).flatten).length := by
  induction frames with
  | nil => simp
  | cons f fs ih =>
    simp only [List.map_cons, List.flatten_cons, List.length_append, List.length_cons]
    have h1 : 1 ≤ (encode_resp_array f).length := by
      have h := encode_resp_array_ne_nil f
      cases hE : encode_resp_array f with
      | nil => exact absurd hE h
      | cons _ _ => simp
    omega

theorem parse_multiple_loop_frames :
    ∀ (frames : List (List PyStr)) (fuel : Nat) (acc : List (List PyStr)),
    frames.length < fuel →
    (∀ f ∈ frames, f ≠ [] ∧ ∀ e ∈ f, GoodArg e) →
    parse_multiple_loop fuel ((frames.map encode_resp_array).flatten) acc =
      some (acc ++ frames, []) := by
  intro frames
  induction frames with
  | nil =>
    intro fuel acc hfuel _
    obtain ⟨fu, rfl⟩ : ∃ fu, fuel = fu + 1 := ⟨fuel - 1, by omega⟩
    simp [parse_multiple_loop]
  | cons f rest ih =>
    intro fuel acc hfuel hgood
    obtain ⟨fu, rfl⟩ : ∃ fu, fuel = fu + 1 := ⟨fuel - 1, by omega⟩
    have hgf := hgood f (List.mem_cons_self _ _)
    have hgrest : ∀ g ∈ rest, g ≠ [] ∧ ∀ e ∈ g, GoodArg e :=
      fun g hg => hgood g (List.mem_cons_of_mem _ hg)
    have hdata : (List.map encode_resp_array (f :: rest)).flatten =
        encode_resp_array f ++ (List.map encode_resp_array rest).flatten := by simp
    have hhead : (encode_resp_array f ++ (List.map encode_resp_array rest).flatten).head? =
        some 42 := by
      rw [encode_resp_array_eq]
      rfl
    have hne : encode_resp_array f ++ (List.map encode_resp_array rest).flatten ≠ [] := by
      intro h
      rw [h] at hhead
      simp at hhead
    have hlines : splitSep (encode_resp_array f ++ (List.map encode_resp_array rest).flatten) =
        ([42] ++ natToStr f.length) ::
          (frameBody f ++ splitSep ((List.map encode_resp_array rest).flatten)) :=
      splitSep_encode_array f (fun e he => (hgf.2 e he).2) _
    have hSlen : 1 ≤ (splitSep ((List.map encode_resp_array rest).flatten)).length :=
      List.length_pos.mpr (splitSep_ne_nil _)
    have hsingle : splitSep (encode_resp_array f) =
        (([42] ++ natToStr f.length) :: frameBody f) ++ [[]] := by
      have hx := splitSep_encode_array f (fun e he => (hgf.2 e he).2) []
      rw [List.append_nil] at hx
      rw [hx]
      simp [splitSep]
    have hcmd : joinSep (([42] ++ natToStr f.length) :: frameBody f) ++ 13 :: 10 :: [] =
        encode_resp_array f := by
      rw [← joinSep_concat_nil _ (by simp), ← hsingle, joinSep_splitSep]
    have htake : pyTake (1 + (f.length : Int) * 2)
        (([42] ++ natToStr f.length) ::
          (frameBody f ++ splitSep ((List.map encode_resp_array rest).flatten))) =
        ([42] ++ natToStr f.length) :: frameBody f := by
      unfold pyTake
      rw [if_neg (by omega)]
      have hk : (1 + (f.length : Int) * 2).toNat = 2 * f.length + 1 := by omega
      rw [hk, List.take_succ_cons, List.take_left' (frameBody_length f)]
    have hdrop : pyDrop (1 + (f.length : Int) * 2)
        (([42] ++ natToStr f.length) ::
          (frameBody f ++ splitSep ((List.map encode_resp_array rest).flatten))) =
        splitSep ((List.map encode_resp_array rest).flatten) := by
      unfold pyDrop
      rw [if_neg (by omega)]
      have hk : (1 + (f.length : Int) * 2).toNat = 2 * f.length + 1 := by omega
      rw [hk, List.drop_succ_cons, List.drop_left' (frameBody_length f)]
    rw [hdata, parse_multiple_loop]
    rw [if_neg hne]
    rw [if_neg (by rw [hhead]; simp)]
    rw [hlines]
    rw [if_neg (by
      simp only [List.length_cons, List.length_append, frameBody_length]
      omega)]
    rw [show ((((([42] ++ natToStr f.length) ::
        (frameBody f ++ splitSep ((List.map encode_resp_array rest).flatten)))).headD []).drop 1)
        = natToStr f.length from by simp]
    simp only [pyInt_natToStr]
    rw [if_neg (by
      simp only [List.length_cons, List.length_append, frameBody_length]
      push_cast
      omega)]
    rw [htake, hcmd]
    simp only [parse_resp_encode f hgf.2]
    rw [hdrop]
    rw [joinSep_splitSep]
    rw [if_neg hgf.1]
    cases rest with
    | nil =>
      rw [if_pos (by simp)]
      simp
    | cons g gs =>
      have hTne : (List.map encode_resp_array (g :: gs)).flatten ≠ [] := by
        simp only [List.map_cons, List.flatten_cons]
        intro h
        have h2 := List.append_eq_nil.mp h
        exact encode_resp_array_ne_nil g h2.1
      rw [if_neg hTne]
      rw [ih fu (acc ++ [f]) (by simp at hfuel ⊢; omega) hgrest]
      simp

/-- A stored value of `redis_store`: either a bare string (3-argument `SET`,
or an RDB no-expiry install) or a Python dict intended to carry a `value`
and an `expiry` field.  The two fields are modelled as `Option`s so that the
shape invariant (both fields present) is a provable property of the writers
rather than a typing artefact. -/
inductive Entry where
  | str (v : PyStr)
  | dict (value? : Option PyStr) (expiry? : Option ℚ)
deriving DecidableEq

/-- The in-memory keyspace `redis_store`: an insertion-ordered association
list with unique keys, modelling the Python dict. -/
abbrev Store := List (PyStr × Entry)

/-- Python `redis_store[key]` lookup (as an `Option`). -/
def storeGet (st : Store) (k : PyStr) : Option Entry :=
  (st.find? (fun p => p.1 == k)).map (·.2)

/-- Python `redis_store[key] = e`: replace in place if present, else append. -/
def storeSet (st : Store) (k : PyStr) (e : Entry) : Store :=
  if (st.find? (fun p => p.1 == k)).isSome then
    st.map (fun p => if p.1 == k then (k, e) else p)
  else st ++ [(k, e)]

/-- Python `del redis_store[key]`. -/
def storeDel (st : Store) (k : PyStr) : Store :=
  st.filter (fun p => !(p.1 == k))

/-- `is_key_expired` from `app/commands.py` (identical copy in
`app/main.py`): returns whether the key was expired-and-removed, together
with the possibly mutated store. -/
def is_key_expired (key : PyStr) (now : ℚ) (st : Store) : Bool × Store :=
  match storeGet st key with
  | none => (false, st)
  | some (.str _) => (false, st)
  | some (.dict _ none) => (false, st)
  | some (.dict _ (some x)) =>
    if now > x then (true, storeDel st key) else (false, st)

/-- The reply `b"+OK\r\n"`. -/
def okReply : List Nat := asciiOf "+OK\r\n"

/-- The reply `b"-ERR wrong number of arguments for 'set' command\r\n"`
(39 is the ASCII quote around the command name). -/
def setArityReply : List Nat :=
  asciiOf "-ERR wrong number of arguments for " ++
    39 :: asciiOf "set" ++ 39 :: asciiOf " command\r\n"

/-- `handle_set` from `app/commands.py`: 3-argument form installs a bare
string; the 5-argument `PX` form parses the millisecond count with `int()`
(`none` models the uncaught `ValueError` on a malformed count) and installs
a value-with-expiry dict; anything else is the arity error. -/
def handle_set (command : List PyStr) (now : ℚ) (st : Store) :
    Option (Store × List Nat) :=
  if command.length = 3 then
    some (storeSet st (command.getD 1 []) (.str (command.getD 2 [])), okReply)
  else if command.length = 5 ∧ pyUpper (command.getD 3 []) = [80, 88] then
    match pyInt (command.getD 4 []) with
    | none => none
    | some ms =>
      some (storeSet st (command.getD 1 [])
        (.dict (some (command.getD 2 [])) (some (now + (ms : ℚ) / 1000))), okReply)
  else some (st, setArityReply)

/-- `handle_get` from `app/commands.py`: missing or expired keys produce the
null bulk string (deleting an expired entry); a present entry's value is
returned as a bulk string (`none` models the `KeyError` a value-less dict
entry would raise on `key_data["value"]`). -/
def handle_get (key : PyStr) (now : ℚ) (st : Store) : Option (Store × List Nat) :=
  match storeGet st key with
  | none => some (st, encode_null_bulk_string)
  | some _ =>
    let r := is_key_expired key now st
    if r.1 then some (r.2, encode_null_bulk_string)
    else
      match storeGet r.2 key with
      | none => none
      | some (.str v) => some (r.2, encode_bulk_string v)
      | some (.dict v? _) =>
        match v? with
        | none => none
        | some v => some (r.2, encode_bulk_string v)

/-- The `for key in list(redis_store.keys())` loop of `handle_keys`:
filters (and removes) expired entries while collecting the live keys in
order. -/
def handle_keys_loop (now : ℚ) : Store → List PyStr → Store × List PyStr
  | st, [] => (st, [])
  | st, k :: ks =>
    let r := is_key_expired k now st
    let rec2 := handle_keys_loop now r.2 ks
    (rec2.1, if r.1 then rec2.2 else k :: rec2.2)

/-- `handle_keys` from `app/commands.py`: only the literal `*` pattern is
served; it returns the RESP array of live keys (lazily expiring entries),
any other pattern gets an empty array. -/
def handle_keys (pattern : PyStr) (now : ℚ) (st : Store) : Store × List Nat :=
  if pattern = [42] then
    let r := handle_keys_loop now st (st.map (·.1))
    (r.1, encode_resp_array r.2)
  else (st, asciiOf "*0\r\n")

/-- `handle_set` from `app/main.py`: like `handle_set` of
`app/commands.py`, plus a `silent` mode (propagated commands answer
nothing) and master-side fan-out.  The result carries the new store, the
optional reply bytes (`none` when silent), and the RESP-encoded command
broadcast to the replica registry (`none` when nothing is propagated);
`none` overall models the uncaught `ValueError` of `int()`. -/
def main_handle_set (command : List PyStr) (silent : Bool) (roleMaster : Bool)
    (now : ℚ) (st : Store) :
    Option (Store × Option (List Nat) × Option (List Nat)) :=
  if command.length = 3 then
    let st2 := storeSet st (command.getD 1 []) (.str (command.getD 2 []))
    let response : Option (List Nat) := if silent then none else some okReply
    some (st2, response,
      if silent = false ∧ response.isSome ∧ roleMaster then
        some (encode_resp_array command)
      else none)
  else if command.length = 5 ∧ pyUpper (command.getD 3 []) = [80, 88] then
    match pyInt (command.getD 4 []) with
    | none => none
    | some ms =>
      let st2 := storeSet st (command.getD 1 [])
        (.dict (some (command.getD 2 [])) (some (now + (ms : ℚ) / 1000)))
      let response : Option (List Nat) := if silent then none else some okReply
      some (st2, response,
        if silent = false ∧ response.isSome ∧ roleMaster then
          some (encode_resp_array command)
        else none)
  else
    some (st, (if silent then none else some setArityReply), none)

/-- Well-formedness of a stored entry: a bare string, or a dict carrying
both its `value` and its `expiry` field. -/
def EntryWF : Entry → Prop
  | .str _ => True
  | .dict v? x? => v?.isSome ∧ x?.isSome

instance : ∀ e, Decidable (EntryWF e) := fun e => by
  cases e <;> (unfold EntryWF; infer_instance)

/-- Every entry of the keyspace is well-formed. -/
def StoreWF (st : Store) : Prop := ∀ p ∈ st, EntryWF p.2

instance : ∀ st, Decidable (StoreWF st) := fun st => List.decidableBAll _ st

/-- `read_size_encoded` from `app/main.py`: decode one size-encoded integer
from the front of the byte stream, returning the value and the remaining
bytes (`none` models a raised error: truncation, or the unsupported special
subtypes ≥ 3). -/
def read_size_encoded : List Nat → Option (Nat × List Nat)
  | [] => none
  | b :: rest =>
    if b &&& 192 = 0 then some (b &&& 63, rest)
    else if b &&& 192 = 64 then
      match rest with
      | [] => none
      | b2 :: r => some (((b &&& 63) <<< 8) ||| b2, r)
    else if b &&& 192 = 128 then
      match rest with
      | b1 :: b2 :: b3 :: b4 :: r =>
        some (b1 * 16777216 + b2 * 65536 + b3 * 256 + b4, r)
      | _ => none
    else
      if b &&& 63 = 0 then
        match rest with
        | b1 :: r => some (b1, r)
        | [] => none
      else if b &&& 63 = 1 then
        match rest with
        | b1 :: b2 :: r => some (b2 * 256 + b1, r)
        | _ => none
      else if b &&& 63 = 2 then
        match rest with
        | b1 :: b2 :: b3 :: b4 :: r =>
          some (b4 * 16777216 + b3 * 65536 + b2 * 256 + b1, r)
        | _ => none
      else none

/-- `read_encoded_string` from `app/main.py`: peek at the first byte; a
`11`-prefixed byte selects a special integer encoding (8/16/32-bit
little-endian, rendered in decimal), otherwise read a size and then that
many raw bytes, decoded as UTF-8. -/
def read_encoded_string : List Nat → Option (PyStr × List Nat)
  | [] => none
  | b :: rest =>
    if b &&& 192 = 192 then
      if b &&& 63 = 0 then
        match rest with
        | v :: r => some (natToStr v, r)
        | [] => none
      else if b &&& 63 = 1 then
        match rest with
        | v1 :: v2 :: r => some (natToStr (v2 * 256 + v1), r)
        | _ => none
      else if b &&& 63 = 2 then
        match rest with
        | v1 :: v2 :: v3 :: v4 :: r =>
          some (natToStr (v4 * 16777216 + v3 * 65536 + v2 * 256 + v1), r)
        | _ => none
      else none
    else
      match read_size_encoded (b :: rest) with
      | none => none
      | some (len, r) =>
        match utf8Decode (r.take len) with
        | none => none
        | some s => some (s, r.drop len)

theorem read_size_encoded_length (l : List Nat) (v : Nat) (r : List Nat)
    (h : read_size_encoded l = some (v, r)) : r.length < l.length := by
  cases l with
  | nil => simp [read_size_encoded] at h
  | cons b rest =>
    simp only [read_size_encoded] at h
    split_ifs at h
    all_goals repeat split at h
    all_goals simp_all
    all_goals omega

theorem read_encoded_string_length (l : List Nat) (s : PyStr) (r : List Nat)
    (h : read_encoded_string l = some (s, r)) : r.length < l.length := by
  cases l with
  | nil => simp [read_encoded_string] at h
  | cons b rest =>
    simp only [read_encoded_string] at h
    split_ifs at h
    all_goals repeat split at h
    all_goals simp_all
    all_goals try omega
    next x c rem heq =>
      have hlen := read_size_encoded_length _ _ _ heq
      split at h
      · exact absurd h (by simp)
      · simp only [Option.some.injEq, Prod.mk.injEq] at h
        have hr : r = List.drop c rem := h.2.symm
        subst hr
        have hd : (List.drop c rem).length ≤ rem.length := by simp
        simp only [List.length_cons] at hlen
        omega

/-- How the RDB section loop of `load_rdb_file` (`app/main.py`) ended:
`eof` models stream exhaustion, `eofMarker` the 0xFF end-of-file opcode,
`errUnknownOpcode` the logged unknown-opcode stop, and `errExn` an uncaught
read error (truncated stream or unsupported encoding). -/
inductive RdbEnd where
  | eof
  | eofMarker
  | errUnknownOpcode (b : Nat)
  | errExn
deriving DecidableEq

/-- One iteration of the `while True` section loop of `load_rdb_file` from
`app/main.py`, after the opcode byte `b` has been read: dispatch on the
opcode — 0xFA metadata (two encoded strings, discarded), 0xFE database index
(one size, discarded), 0xFB resize hint (two sizes, discarded), 0xFF end of
file, 0xFC millisecond-expiry entry (8-byte little-endian expiry, type byte,
key, value), 0xFD second-expiry entry (4-byte little-endian expiry), 0x00
plain string entry, anything else stops with the unknown-opcode report.
`Sum.inl` means the loop continues with the new store and remaining stream;
`Sum.inr` means it stops with the given result. -/
def rdbStep (st : Store) (b : Nat) (rest : List Nat) :
    (Store × List Nat) ⊕ (Store × RdbEnd) :=
  if b = 250 then
    match read_encoded_string rest with
    | none => .inr (st, .errExn)
    | some (_, r1) =>
      match read_encoded_string r1 with
      | none => .inr (st, .errExn)
      | some (_, r2) => .inl (st, r2)
  else if b = 254 then
    match read_size_encoded rest with
    | none => .inr (st, .errExn)
    | some (_, r1) => .inl (st, r1)
  else if b = 251 then
    match read_size_encoded rest with
    | none => .inr (st, .errExn)
    | some (_, r1) =>
      match read_size_encoded r1 with
      | none => .inr (st, .errExn)
      | some (_, r2) => .inl (st, r2)
  else if b = 255 then .inr (st, .eofMarker)
  else if b = 252 then
    match rest with
    | e1 :: e2 :: e3 :: e4 :: e5 :: e6 :: e7 :: e8 :: _t :: r1 =>
      match read_encoded_string r1 with
      | none => .inr (st, .errExn)
      | some (key, r2) =>
        match read_encoded_string r2 with
        | none => .inr (st, .errExn)
        | some (value, r3) =>
          .inl (storeSet st key (.dict (some value)
            (some (((e1 + e2 * 256 + e3 * 65536 + e4 * 16777216 +
              e5 * 4294967296 + e6 * 1099511627776 + e7 * 281474976710656 +
              e8 * 72057594037927936 : Nat) : ℚ) / 1000))), r3)
    | _ => .inr (st, .errExn)
  else if b = 253 then
    match rest with
    | e1 :: e2 :: e3 :: e4 :: _t :: r1 =>
      match read_encoded_string r1 with
      | none => .inr (st, .errExn)
      | some (key, r2) =>
        match read_encoded_string r2 with
        | none => .inr (st, .errExn)
        | some (value, r3) =>
          .inl (storeSet st key (.dict (some value)
            (some ((e1 + e2 * 256 + e3 * 65536 + e4 * 16777216 : Nat) : ℚ))), r3)
    | _ => .inr (st, .errExn)
  else if b = 0 then
    match read_encoded_string rest with
    | none => .inr (st, .errExn)
    | some (key, r1) =>
      match read_encoded_string r1 with
      | none => .inr (st, .errExn)
      | some (value, r2) => .inl (storeSet st key (.str value), r2)
  else .inr (st, .errUnknownOpcode b)

/-- The `while True` section loop of `load_rdb_file` from `app/main.py`:
read one opcode byte, run `rdbStep`, and continue or stop accordingly.  The
loop is written with explicit fuel; every continuing step consumes at least
one byte of the stream (see `read_size_encoded_length` and
`read_encoded_string_length`), so the fuel `stream.length + 1` supplied by
`load_rdb_sections` is never exhausted and the fuel-exhaustion branch is
unreachable there. -/
def load_rdb_sections_loop : Nat → Store → List Nat → Store × RdbEnd
  | _, st, [] => (st, .eof)
  | 0, st, _ :: _ => (st, .errExn)
  | fuel + 1, st, b :: rest =>
    match rdbStep st b rest with
    | .inl (st2, r) => load_rdb_sections_loop fuel st2 r
    | .inr res => res

/-- The RDB section loop applied to a whole stream (with always-sufficient
fuel, see `load_rdb_sections_loop`). -/
def load_rdb_sections (st : Store) (stream : List Nat) : Store × RdbEnd :=
  load_rdb_sections_loop (stream.length + 1) st stream

theorem storeSet_cons_ne (p : PyStr × Entry) (ps : Store) (k : PyStr) (e : Entry)
    (hp : (p.1 == k) = false) : storeSet (p :: ps) k e = p :: storeSet ps k e := by
  unfold storeSet
  rw [List.find?_cons_of_neg _ (by simp [hp])]
  split_ifs with h
  · rw [List.map_cons, if_neg (by simp [hp])]
  · rfl

theorem storeGet_storeSet_self (st : Store) (k : PyStr) (e : Entry) :
    storeGet (storeSet st k e) k = some e := by
  induction st with
  | nil =>
    simp [storeSet, storeGet, List.find?]
  | cons p ps ih =>
    by_cases hp : (p.1 == k) = true
    · unfold storeSet
      rw [List.find?_cons_of_pos _ (by simp [hp])]
      simp only [Option.isSome_some, if_true, List.map_cons, if_pos hp]
      unfold storeGet
      rw [List.find?_cons_of_pos _ (by simp)]
      rfl
    · rw [storeSet_cons_ne p ps k e (by simpa using hp)]
      unfold storeGet
      rw [List.find?_cons_of_neg _ (by simpa using hp)]
      exact ih

theorem storeSet_WF (st : Store) (k : PyStr) (e : Entry)
    (hst : StoreWF st) (he : EntryWF e) : StoreWF (storeSet st k e) := by
  unfold storeSet
  split_ifs with h
  · intro p hp
    rw [List.mem_map] at hp
    obtain ⟨q, hq, rfl⟩ := hp
    by_cases hqk : (q.1 == k) = true
    · simp only [hqk, if_true]
      exact he
    · simp only [hqk, if_false]
      exact hst q hq
  · intro p hp
    rcases List.mem_append.mp hp with hp | hp
    · exact hst p hp
    · simp at hp
      rw [hp]
      exact he

theorem storeDel_WF (st : Store) (k : PyStr) (hst : StoreWF st) :
    StoreWF (storeDel st k) := by
  intro p hp
  exact hst p (List.mem_of_mem_filter hp)

theorem is_key_expired_WF (key : PyStr) (now : ℚ) (st : Store) (hst : StoreWF st) :
    StoreWF (is_key_expired key now st).2 := by
  unfold is_key_expired
  split
  · exact hst
  · exact hst
  · exact hst
  · split_ifs
    · exact storeDel_WF st key hst
    · exact hst

theorem EntryWF_str (v : PyStr) : EntryWF (.str v) := trivial

theorem EntryWF_dict (v : PyStr) (x : ℚ) : EntryWF (.dict (some v) (some x)) := by
  simp [EntryWF]

theorem rdbStep_WF (st : Store) (b : Nat) (rest : List Nat) (st2 : Store)
    (r : List Nat) (hst : StoreWF st) (h : rdbStep st b rest = .inl (st2, r)) :
    StoreWF st2 := by
  unfold rdbStep at h
  split_ifs at h
  all_goals repeat' (split at h)
  all_goals simp only [Sum.inl.injEq, Sum.inr.injEq, Prod.mk.injEq, reduceCtorEq,
    false_and, and_false] at h
  all_goals rw [← h.1]
  all_goals
    first
      | exact hst
      | exact storeSet_WF _ _ _ hst (EntryWF_str _)
      | exact storeSet_WF _ _ _ hst (EntryWF_dict _ _)

theorem load_rdb_sections_loop_WF : ∀ (fuel : Nat) (st : Store) (stream : List Nat),
    StoreWF st → StoreWF (load_rdb_sections_loop fuel st stream).1 := by
  intro fuel
  induction fuel with
  | zero =>
    intro st stream hst
    cases stream <;> simpa [load_rdb_sections_loop] using hst
  | succ n ihn =>
    intro st stream hst
    cases stream with
    | nil => simpa [load_rdb_sections_loop] using hst
    | cons b rest =>
      rw [load_rdb_sections_loop]
      split
      · next st2 r hstep =>
        exact ihn st2 r (rdbStep_WF st b rest st2 r hst hstep)
      · next res hstep =>
        have hres : res.1 = st := by
          unfold rdbStep at hstep
          split_ifs at hstep
          all_goals repeat' (split at hstep)
          all_goals simp only [Sum.inl.injEq, Sum.inr.injEq, reduceCtorEq] at hstep
          all_goals rw [← hstep]
        rw [hres]
        exact hst

theorem load_rdb_sections_WF (st : Store) (stream : List Nat) (hst : StoreWF st) :
    StoreWF (load_rdb_sections st stream).1 :=
  load_rdb_sections_loop_WF _ st stream hst

theorem is_key_expired_not_expired (key : PyStr) (now : ℚ) (st : Store)
    (h : (is_key_expired key now st).1 = false) : (is_key_expired key now st).2 = st := by
  unfold is_key_expired at h ⊢
  split at h
  · rfl
  · rfl
  · rfl
  · split_ifs at h ⊢ <;> first | rfl | simp at h

theorem storeGet_entryWF (st : Store) (k : PyStr) (e : Entry)
    (hst : StoreWF st) (h : storeGet st k = some e) : EntryWF e := by
  unfold storeGet at h
  cases hf : st.find? (fun p => p.1 == k) with
  | none => rw [hf] at h; simp at h
  | some p =>
    rw [hf] at h
    simp only [Option.map_some', Option.some.injEq] at h
    rw [← h]
    exact hst p (List.mem_of_find?_eq_some hf)

theorem handle_get_isSome (key : PyStr) (now : ℚ) (st : Store) (hst : StoreWF st) :
    (handle_get key now st).isSome := by
  unfold handle_get
  cases hg : storeGet st key with
  | none => rfl
  | some e =>
    by_cases hexp : (is_key_expired key now st).1 = true
    · rw [if_pos hexp]
      simp
    · rw [if_neg hexp]
      have hs : (is_key_expired key now st).2 = st :=
        is_key_expired_not_expired key now st (by simpa using hexp)
      rw [hs, hg]
      have hWFe := storeGet_entryWF st key e hst hg
      cases e with
      | str v => simp
      | dict v? x? =>
        obtain ⟨v, rfl⟩ : ∃ v, v? = some v := by
          cases v? with
          | none => simp [EntryWF] at hWFe
          | some v => exact ⟨v, rfl⟩
        simp

theorem handle_keys_loop_WF (now : ℚ) : ∀ (ks : List PyStr) (st : Store),
    StoreWF st → StoreWF (handle_keys_loop now st ks).1 := by
  intro ks
  induction ks with
  | nil =>
    intro st hst
    simpa [handle_keys_loop] using hst
  | cons k ks ih =>
    intro st hst
    exact ih ((is_key_expired k now st).2) (is_key_expired_WF k now st hst)

theorem handle_keys_WF (pattern : PyStr) (now : ℚ) (st : Store) (hst : StoreWF st) :
    StoreWF (handle_keys pattern now st).1 := by
  unfold handle_keys
  split_ifs
  · exact handle_keys_loop_WF now (st.map (·.1)) st hst
  · exact hst

set_option maxRecDepth 100000 in
theorem nat_and_192 : ∀ b < 256, b &&& 192 = b - b % 64 := by decide

set_option maxRecDepth 100000 in
theorem nat_and_63 : ∀ b < 256, b &&& 63 = b % 64 := by decide

set_option maxRecDepth 100000 in
theorem nat_shift_or : ∀ x < 64, ∀ y < 256, (x <<< 8) ||| y = x * 256 + y := by decide

/-- Claim C1: for every key `k` and value `v`, a SET with exactly the three
arguments `["SET", k, v]` succeeds with `+OK`, and a subsequent GET of `k`
(at any later time, with no intervening mutation) returns a bulk string
carrying exactly `v`. -/
theorem c1_set_get (k v : PyStr) (st : Store) (now now2 : ℚ) :
    handle_set [asciiOf "SET", k, v] now st = some (storeSet st k (.str v), okReply) ∧
    handle_get k now2 (storeSet st k (.str v)) =
      some (storeSet st k (.str v), encode_bulk_string v) := by
  have hset : handle_set [asciiOf "SET", k, v] now st =
      some (storeSet st k (.str v), okReply) := by
    unfold handle_set
    rw [if_pos (by simp)]
    rfl
  refine ⟨hset, ?_⟩
  have hget : storeGet (storeSet st k (.str v)) k = some (.str v) :=
    storeGet_storeSet_self st k (.str v)
  have hexp : is_key_expired k now2 (storeSet st k (.str v)) =
      (false, storeSet st k (.str v)) := by
    unfold is_key_expired
    simp only [hget]
  unfold handle_get
  simp [hget, hexp]

/-- Claim C2 counterexample: the claim quantifies over arbitrary byte
contents, but an argument containing the CRLF pair is mis-split by
`parse_resp` (which splits the buffer on every CRLF and ignores the declared
length), so encoding then decoding `["a\r\nb"]` yields `["a"]`. -/
theorem c2_counterexample :
    parse_resp (encode_resp_array [[97, 13, 10, 98]]) = .ok [[97]] ∧
    ([[97]] : List PyStr) ≠ [[97, 13, 10, 98]] := by
  constructor
  · simp [parse_resp, encode_resp_array, encode_bulk_string, natToStr, toDecimalAux,
      utf8Str, utf8EncodeChar, splitSep, parseLoop, pyInt, pyIntDigits, utf8Decode,
      utf8DecodeAux, utf8DecodeChar]
  · simp

/-- Claim C2 (amended): encoding a nonempty argument list as a RESP array
and decoding it with `parse_resp` yields the same list, provided every
argument consists of encodable code points and contains no embedded CRLF
pair. -/
theorem c2_roundtrip_amended (args : List PyStr) (hne : args ≠ [])
    (h : ∀ e ∈ args, GoodArg e) :
    parse_resp (encode_resp_array args) = .ok args :=
  parse_resp_encode args h

/-- Concrete instance of the amended C2 round trip. -/
theorem c2_witness :
    parse_resp (encode_resp_array [[104, 105], [233]]) = .ok [[104, 105], [233]] :=
  c2_roundtrip_amended [[104, 105], [233]] (by simp) (by decide)

/-- Claim C3 counterexample: a single complete frame with element count 0
(`*0\r\n`, i.e. `encode_resp_array []`) is decoded to the empty argument
list, which is falsy in Python, so `parse_multiple_resp_commands` drops it
and yields zero argument lists instead of one. -/
theorem c3_counterexample :
    parse_multiple_resp_commands (encode_resp_array []) = some ([], []) ∧
    some (([] : List (List PyStr)), ([] : List Nat)) ≠ some ([[]], []) := by
  constructor
  · simp [parse_multiple_resp_commands, encode_resp_array, natToStr, toDecimalAux,
      utf8Str, utf8EncodeChar, parse_multiple_loop, splitSep, joinSep, pyTake, pyDrop,
      pyInt, pyIntDigits, parse_resp, parseLoop]
  · simp

/-- Claim C3 (amended): for every concatenation of complete RESP request
frames whose element counts are at least 1 (and whose arguments are
encodable and CRLF-free), the incremental decoder yields exactly the frames'
argument lists in order, with empty residual.  A count-0 frame is decoded
but its empty argument list is dropped by the truthiness test, so such
frames yield no argument list. -/
theorem c3_multiframe_amended (frames : List (List PyStr))
    (h : ∀ f ∈ frames, f ≠ [] ∧ ∀ e ∈ f, GoodArg e) :
    parse_multiple_resp_commands ((frames.map encode_resp_array).flatten) =
      some (frames, []) := by
  unfold parse_multiple_resp_commands
  exact parse_multiple_loop_frames frames (((frames.map encode_resp_array).flatten).length + 1)
    [] (by have := flatten_encode_length frames; omega) h

/-- Concrete instance of the amended C3 multi-frame decode law. -/
theorem c3_witness :
    parse_multiple_resp_commands
      (((([[asciiOf "PING"], [asciiOf "SET", [97], [98]]] : List (List PyStr))).map
        encode_resp_array).flatten) =
      some ([[asciiOf "PING"], [asciiOf "SET", [97], [98]]], []) :=
  c3_multiframe_amended [[asciiOf "PING"], [asciiOf "SET", [97], [98]]] (by decide)

/-- Claim C4 counterexample: `SET k v PX -5` does not produce the arity
error; the negative count parses fine, the key is installed (with an
already-elapsed expiry) and `+OK` is returned. -/
theorem c4_counterexample :
    handle_set [asciiOf "SET", asciiOf "k", asciiOf "v", asciiOf "PX", asciiOf "-5"]
      0 [] = some (storeSet [] (asciiOf "k")
        (.dict (some (asciiOf "v")) (some ((0 : ℚ) + ((-5 : Int) : ℚ) / 1000))), okReply) ∧
    okReply ≠ setArityReply ∧
    (storeGet (storeSet [] (asciiOf "k")
      (.dict (some (asciiOf "v")) (some ((0 : ℚ) + ((-5 : Int) : ℚ) / 1000))))
      (asciiOf "k")).isSome = true :=
  ⟨rfl, by decide, rfl⟩

/-- Claim C4 (amended): for `["SET", k, v, "PX", ms]`, any `ms` accepted by
`int()` — negative included — installs the key with expiry `now + ms/1000`
and returns `+OK`; an `ms` rejected by `int()` makes the handler raise
(modelled `none`), installing nothing and sending no reply.  The arity error
is never produced for this shape. -/
theorem c4_px_amended (k v ms : PyStr) (st : Store) (now : ℚ) :
    (∀ n : Int, pyInt ms = some n →
      handle_set [asciiOf "SET", k, v, asciiOf "PX", ms] now st =
        some (storeSet st k (.dict (some v) (some (now + (n : ℚ) / 1000))), okReply)) ∧
    (pyInt ms = none →
      handle_set [asciiOf "SET", k, v, asciiOf "PX", ms] now st = none) := by
  constructor
  · intro n hn
    unfold handle_set
    rw [if_neg (by simp), if_pos (by exact ⟨by simp, by rfl⟩)]
    rw [show [asciiOf "SET", k, v, asciiOf "PX", ms].getD 4 [] = ms from rfl, hn]
    rfl
  · intro hn
    unfold handle_set
    rw [if_neg (by simp), if_pos (by exact ⟨by simp, by rfl⟩)]
    rw [show [asciiOf "SET", k, v, asciiOf "PX", ms].getD 4 [] = ms from rfl, hn]

/-- Concrete instances of the amended C4 behaviour: a negative count
installs and answers `+OK`; a malformed count raises. -/
theorem c4_witness :
    handle_set [asciiOf "SET", asciiOf "k", asciiOf "v", asciiOf "PX", asciiOf "-250"]
      0 [] = some (storeSet [] (asciiOf "k")
        (.dict (some (asciiOf "v")) (some ((0 : ℚ) + ((-250 : Int) : ℚ) / 1000))), okReply) ∧
    handle_set [asciiOf "SET", asciiOf "k", asciiOf "v", asciiOf "PX", asciiOf "12x"]
      0 [] = none :=
  ⟨(c4_px_amended (asciiOf "k") (asciiOf "v") (asciiOf "-250") [] 0).1 (-250) (by decide),
   (c4_px_amended (asciiOf "k") (asciiOf "v") (asciiOf "12x") [] 0).2 (by decide)⟩

/-- Claim C5 counterexample: for the one-character value `é` (code point
233) the encoder emits the header `$1` — `len(value)` counts characters —
while the UTF-8 payload that follows is the two bytes `0xC3 0xA9`, so the
header does not carry the payload's byte count. -/
theorem c5_counterexample :
    encode_bulk_string [233] = [36] ++ natToStr 1 ++ [13, 10] ++ [195, 169] ++ [13, 10] ∧
    ([195, 169] : List Nat).length ≠ 1 := by
  constructor
  · simp [encode_bulk_string, natToStr, toDecimalAux, utf8Str, utf8EncodeChar]
  · simp

/-- Claim C5 (amended): the bulk-string encoder emits
`$<len(value)>\r\n<utf8(value)>\r\n` where the header counts the characters
of the value; the header equals the payload's byte count exactly when every
character is ASCII (single-byte). -/
theorem c5_bulk_header_amended (v : PyStr) :
    encode_bulk_string v =
      [36] ++ natToStr v.length ++ 13 :: 10 :: (utf8Str v ++ 13 :: 10 :: []) ∧
    ((∀ c ∈ v, c < 128) → (utf8Str v).length = v.length) := by
  constructor
  · rw [encode_bulk_string_eq]
  · intro h
    rw [utf8Str_ascii v h]

/-- Concrete instance of the ASCII case of the amended C5. -/
theorem c5_witness : (utf8Str [104, 105]).length = ([104, 105] : PyStr).length :=
  (c5_bulk_header_amended [104, 105]).2 (by decide)

/-- Claim C6: a GET of a key whose stored entry carries an expiry strictly
in the past returns the null bulk string and deletes the entry from the
keyspace before returning. -/
theorem c6_expired_get (k : PyStr) (v? : Option PyStr) (x now : ℚ) (st : Store)
    (hentry : storeGet st k = some (.dict v? (some x))) (hpast : x < now) :
    handle_get k now st = some (storeDel st k, encode_null_bulk_string) := by
  have hexp : is_key_expired k now st = (true, storeDel st k) := by
    unfold is_key_expired
    simp only [hentry]
    rw [if_pos hpast]
  unfold handle_get
  simp [hentry, hexp]

/-- Concrete instance of C6: an entry that expired at time 5, queried at
time 10, answers null and is removed. -/
theorem c6_witness :
    handle_get (asciiOf "k") 10
      [(asciiOf "k", Entry.dict (some (asciiOf "v")) (some 5))] =
      some (storeDel [(asciiOf "k", Entry.dict (some (asciiOf "v")) (some 5))] (asciiOf "k"),
        encode_null_bulk_string) :=
  c6_expired_get (asciiOf "k") (some (asciiOf "v")) 5 10
    [(asciiOf "k", Entry.dict (some (asciiOf "v")) (some 5))] rfl (by norm_num)

/-- Claim C7 counterexample: a first byte with top bits `11` *is* accepted
as a size by `read_size_encoded` — `0xC0 0x07` yields the size 7 via the
8-bit special integer encoding — contradicting the claim that such bytes
are never accepted as sizes. -/
theorem c7_counterexample :
    read_size_encoded [192, 7] = some (7, []) ∧ 192 &&& 192 = 192 := by
  constructor
  · rfl
  · rfl

/-- Claim C7 (amended): the sizes accepted by `read_size_encoded` are —
top bits `00`: the low 6 bits; top bits `01`: low 6 bits concatenated
big-endian with the next byte; top bits `10`: the next 4 bytes big-endian;
and top bits `11` select the special integer encodings, whose subtypes
0/1/2 are *also* accepted as sizes, read as the following 8/16/32-bit
little-endian integer, while subtypes ≥ 3 raise a loader error. -/
theorem c7_size_encoding_amended (b b2 b3 b4 b5 : Nat) (r : List Nat)
    (hb : b < 256) (h2 : b2 < 256) :
    (b < 64 → read_size_encoded (b :: r) = some (b, r)) ∧
    (64 ≤ b → b < 128 → read_size_encoded (b :: b2 :: r) = some ((b - 64) * 256 + b2, r)) ∧
    (128 ≤ b → b < 192 → read_size_encoded (b :: b2 :: b3 :: b4 :: b5 :: r) =
      some (b2 * 16777216 + b3 * 65536 + b4 * 256 + b5, r)) ∧
    (192 ≤ b → b % 64 = 0 → read_size_encoded (b :: b2 :: r) = some (b2, r)) ∧
    (192 ≤ b → b % 64 = 1 → read_size_encoded (b :: b2 :: b3 :: r) =
      some (b3 * 256 + b2, r)) ∧
    (192 ≤ b → b % 64 = 2 → read_size_encoded (b :: b2 :: b3 :: b4 :: b5 :: r) =
      some (b5 * 16777216 + b4 * 65536 + b3 * 256 + b2, r)) ∧
    (192 ≤ b → 3 ≤ b % 64 → read_size_encoded (b :: r) = none) := by
  have a192 : b &&& 192 = b - b % 64 := nat_and_192 b hb
  have a63 : b &&& 63 = b % 64 := nat_and_63 b hb
  have hm : b % 64 < 64 := Nat.mod_lt _ (by omega)
  have hdm : 64 * (b / 64) + b % 64 = b := Nat.div_add_mod b 64
  refine ⟨?_, ?_, ?_, ?_, ?_, ?_, ?_⟩
  · intro h1
    simp only [read_size_encoded]
    rw [if_pos (by omega), a63]
    rw [Nat.mod_eq_of_lt h1]
  · intro h1 h1b
    simp only [read_size_encoded]
    rw [if_neg (by omega), if_pos (by omega)]
    rw [a63, nat_shift_or (b % 64) (by omega) b2 h2]
    have hbb : b % 64 = b - 64 := by omega
    rw [hbb]
  · intro h1 h1b
    simp only [read_size_encoded]
    rw [if_neg (by omega), if_neg (by omega), if_pos (by omega)]
  · intro h1 h1b
    simp only [read_size_encoded]
    rw [if_neg (by omega), if_neg (by omega), if_neg (by omega), if_pos (by rw [a63]; omega)]
  · intro h1 h1b
    simp only [read_size_encoded]
    rw [if_neg (by omega), if_neg (by omega), if_neg (by omega),
      if_neg (by rw [a63]; omega), if_pos (by rw [a63]; omega)]
  · intro h1 h1b
    simp only [read_size_encoded]
    rw [if_neg (by omega), if_neg (by omega), if_neg (by omega),
      if_neg (by rw [a63]; omega), if_neg (by rw [a63]; omega), if_pos (by rw [a63]; omega)]
  · intro h1 h1b
    simp only [read_size_encoded]
    rw [if_neg (by omega), if_neg (by omega), if_neg (by omega),
      if_neg (by rw [a63]; omega), if_neg (by rw [a63]; omega), if_neg (by rw [a63]; omega)]

/-- Concrete instance of the amended C7: a 14-bit size. -/
theorem c7_witness : read_size_encoded [70, 9] = some ((70 - 64) * 256 + 9, []) :=
  (c7_size_encoding_amended 70 9 0 0 0 [] (by decide) (by decide)).2.1 (by decide) (by decide)

/-- Claim C8: when the section loop meets an opcode byte outside the
dispatched set, it stops with the unknown-opcode report — distinguishable
from both kinds of normal end-of-stream termination — and the keyspace is
exactly what had been installed before the failure. -/
theorem c8_unknown_opcode (st : Store) (b : Nat) (rest : List Nat)
    (hb : b ∉ ([250, 254, 251, 255, 252, 253, 0] : List Nat)) :
    load_rdb_sections st (b :: rest) = (st, .errUnknownOpcode b) ∧
    RdbEnd.errUnknownOpcode b ≠ .eof ∧ RdbEnd.errUnknownOpcode b ≠ .eofMarker := by
  simp only [List.mem_cons, List.mem_singleton, not_or] at hb
  obtain ⟨n1, n2, n3, n4, n5, n6, n7⟩ := hb
  have hn7 : b ≠ 0 := by simpa using n7
  have hstep : rdbStep st b rest = .inr (st, .errUnknownOpcode b) := by
    unfold rdbStep
    rw [if_neg n1, if_neg n2, if_neg n3, if_neg n4, if_neg n5, if_neg n6, if_neg hn7]
  refine ⟨?_, by simp, by simp⟩
  unfold load_rdb_sections
  rw [show (b :: rest).length + 1 = (rest.length + 1) + 1 from by simp]
  rw [load_rdb_sections_loop]
  simp [hstep]

/-- Concrete instance of C8: opcode 0x42 stops the loop at once, keeping
the store. -/
theorem c8_witness :
    load_rdb_sections [(asciiOf "k", Entry.str (asciiOf "v"))] [66, 1, 2] =
      ([(asciiOf "k", Entry.str (asciiOf "v"))], RdbEnd.errUnknownOpcode 66) :=
  (c8_unknown_opcode [(asciiOf "k", Entry.str (asciiOf "v"))] 66 [1, 2] (by decide)).1

/-- Claim C9: a SET command whose argument list has neither exactly 3
elements nor the 5-element `PX` form leaves the keyspace unchanged,
propagates nothing to the replica registry, and (when not silent) produces
the arity error reply without any mutation. -/
theorem c9_bad_shape (cmd : List PyStr) (silent roleMaster : Bool) (now : ℚ) (st : Store)
    (h3 : cmd.length ≠ 3)
    (h5 : ¬(cmd.length = 5 ∧ pyUpper (cmd.getD 3 []) = [80, 88])) :
    main_handle_set cmd silent roleMaster now st =
      some (st, (if silent then none else some setArityReply), none) := by
  unfold main_handle_set
  rw [if_neg h3, if_neg h5]

/-- Concrete instance of C9: a 2-argument SET on a master yields the arity
error, no store change and no propagation. -/
theorem c9_witness :
    main_handle_set [asciiOf "SET", asciiOf "k"] false true 0 [] =
      some ([], some setArityReply, none) :=
  c9_bad_shape [asciiOf "SET", asciiOf "k"] false true 0 [] (by simp) (by decide)

/-- Claim C10: every keyspace writer — 3-argument SET, SET with PX, and the
RDB loader's installs — preserves the invariant that every stored entry is
a bare string or a dict carrying both its `value` and `expiry` fields;
consequently GET never raises (it always produces a reply) and the KEYS
path preserves the invariant as well. -/
theorem c10_shape_invariant (st : Store) (hWF : StoreWF st) :
    (∀ cmd now res, handle_set cmd now st = some res → StoreWF res.1) ∧
    (∀ stream, StoreWF (load_rdb_sections st stream).1) ∧
    (∀ k now, (handle_get k now st).isSome) ∧
    (∀ pattern now, StoreWF (handle_keys pattern now st).1) := by
  refine ⟨?_, fun stream => load_rdb_sections_WF st stream hWF,
    fun k now => handle_get_isSome k now st hWF,
    fun pattern now => handle_keys_WF pattern now st hWF⟩
  intro cmd now res h
  unfold handle_set at h
  split_ifs at h with h1 h2
  · simp only [Option.some.injEq] at h
    rw [← h]
    exact storeSet_WF _ _ _ hWF (EntryWF_str _)
  · split at h
    · simp at h
    · simp only [Option.some.injEq] at h
      rw [← h]
      exact storeSet_WF _ _ _ hWF (EntryWF_dict _ _)
  · simp only [Option.some.injEq] at h
    rw [← h]
    exact hWF

/-- Concrete instance of C10 on a nonempty well-formed store. -/
theorem c10_witness :
    (∀ cmd now res, handle_set cmd now [(asciiOf "k", Entry.str (asciiOf "v"))] = some res →
      StoreWF res.1) ∧
    (∀ stream, StoreWF (load_rdb_sections [(asciiOf "k", Entry.str (asciiOf "v"))] stream).1) ∧
    (∀ k now, (handle_get k now [(asciiOf "k", Entry.str (asciiOf "v"))]).isSome) ∧
    (∀ pattern now, StoreWF (handle_keys pattern now
      [(asciiOf "k", Entry.str (asciiOf "v"))]).1) :=
  c10_shape_invariant [(asciiOf "k", Entry.str (asciiOf "v"))] (by decide)
